import Mathlib

/-!
# Verification of the FindMePls fuzzy search core

A shallow embedding, in Lean 4, of the search subsystem of the FindMePls
catalog service:

* `src/document_search.rs` — the `IndexEngine` (vocabulary tracking,
  edit-distance based autocorrect expansion, BM25 query delegation);
* `src/business.rs` — the query orchestrator `find_items` (score sorting,
  store merge, no-matches signalling);
* `src/types.rs` — the space tokenizer and the `Item` binary
  serialization (`as_bytes` / `change_from_bytes`).

Rust machine integers are modelled as `Nat`/`Int`; `f64` relevance scores
are modelled as `Rat` (the claims under study concern ordering and
determinism, not floating-point rounding); fallible operations return
`Option` or `Except`. External collaborators (the BM25 scorer crate and
the SQL store) are modelled as explicit function parameters.
-/

namespace FindMePls

/-! ## Levenshtein distance

The `distance` crate's `levenshtein` computes the standard character-level
edit distance (insertions, deletions, substitutions). -/

/-- Standard Levenshtein edit distance on character lists, with a fuel
argument making the recursion structural. The fuel `xs.length + ys.length`
always suffices: every recursive call consumes one unit of fuel and at
least one list element. -/
def levenshteinAux : Nat → List Char → List Char → Nat
  | _, [], ys => ys.length
  | _, x :: xs, [] => (x :: xs).length
  | 0, _, _ => 0
  | fuel + 1, x :: xs, y :: ys =>
    if x = y then
      levenshteinAux fuel xs ys
    else
      1 + min (levenshteinAux fuel xs ys)
            (min (levenshteinAux fuel (x :: xs) ys) (levenshteinAux fuel xs (y :: ys)))

/-- Levenshtein edit distance on character lists. -/
def levenshteinList (xs ys : List Char) : Nat :=
  levenshteinAux (xs.length + ys.length) xs ys

/-- `distance::levenshtein` on strings. -/
def levenshtein (a b : String) : Nat :=
  levenshteinList a.toList b.toList

/-! ## `document_search.rs`: the edit-distance budget -/

/-- `levenshtein_distance_rule` (src/document_search.rs:20-32): the
word-length-based edit-distance budget. -/
def levenshtein_distance_rule (word_length : Nat) : Nat :=
  if word_length ≤ 3 then 0
  else if word_length ≤ 5 then 1
  else if word_length ≤ 7 then 2
  else if word_length ≤ 10 then 3
  else 4

/-- `LimitOption` (src/document_search.rs:4-8): the autocorrect budget
policy. -/
inductive LimitOption where
  | none
  | wordLengthBased
  | limit (l : Nat)

/-- `LimitOption::into_option` (src/document_search.rs:11-17). -/
def LimitOption.into_option : LimitOption → String → Option Nat
  | .none, _ => Option.none
  | .wordLengthBased, s => some (levenshtein_distance_rule s.length)
  | .limit l, _ => some l

/-- C1: the word-length-based edit-distance budget follows the exact
staircase of the spec: length ≤ 3 gives 0, 4–5 gives 1, 6–7 gives 2,
8–10 gives 3, and ≥ 11 gives 4, for every natural length `L`. -/
theorem levenshtein_distance_rule_staircase (L : Nat) :
    (L ≤ 3 → levenshtein_distance_rule L = 0) ∧
    (4 ≤ L → L ≤ 5 → levenshtein_distance_rule L = 1) ∧
    (6 ≤ L → L ≤ 7 → levenshtein_distance_rule L = 2) ∧
    (8 ≤ L → L ≤ 10 → levenshtein_distance_rule L = 3) ∧
    (11 ≤ L → levenshtein_distance_rule L = 4) := by
  unfold levenshtein_distance_rule
  refine ⟨?_, ?_, ?_, ?_, ?_⟩ <;> intros <;> split_ifs <;> omega

/-- Witness for C1: the staircase evaluated at the boundary lengths. -/
theorem levenshtein_distance_rule_staircase_witness :
    levenshtein_distance_rule 3 = 0 ∧ levenshtein_distance_rule 4 = 1 ∧
    levenshtein_distance_rule 6 = 2 ∧ levenshtein_distance_rule 8 = 3 ∧
    levenshtein_distance_rule 11 = 4 :=
  ⟨(levenshtein_distance_rule_staircase 3).1 (by decide),
   (levenshtein_distance_rule_staircase 4).2.1 (by decide) (by decide),
   (levenshtein_distance_rule_staircase 6).2.2.1 (by decide) (by decide),
   (levenshtein_distance_rule_staircase 8).2.2.2.1 (by decide) (by decide),
   (levenshtein_distance_rule_staircase 11).2.2.2.2 (by decide)⟩

/-! ## `types.rs`: the space tokenizer -/

/-- The model of Rust's `str::split(' ')`: split a character list on a
single delimiter. It always returns at least one piece; splitting the
empty list yields one empty piece, matching `"".split(' ')` in Rust. -/
def splitOnChar (delim : Char) : List Char → List (List Char)
  | [] => [[]]
  | c :: cs =>
    let rest := splitOnChar delim cs
    if c = delim then [] :: rest
    else
      match rest with
      | t :: ts => (c :: t) :: ts
      | [] => [[c]]

/-- `tokenizer` (src/types.rs:314-316): `s.split(' ').map(Cow::from).collect()`. -/
def tokenizer (s : String) : List String :=
  (splitOnChar ' ' s.toList).map String.mk

/-! ## `document_search.rs`: the `IndexEngine`

The BM25 index of the external `probly_search` crate is modelled as the
list of indexed `(key, document)` pairs, with the crate's scoring
function abstracted as the explicit parameter `querySem` (the claims
under study do not depend on BM25 internals, only on how the engine
feeds it). -/

/-- The `IndexEngine` (src/document_search.rs:34-42). -/
structure IndexEngine (K D : Type) where
  bm25Docs : List (K × D)
  querySem : List (K × D) → String → List Rat → List (K × Rat)
  tokenizer : String → List String
  field_accessor : List (D → List String)
  word_occurences : List String

variable {K D : Type}

/-- `IndexEngine::extract_words` (src/document_search.rs:61-74): all
tokens of all strings of all fields, in accessor order. -/
def IndexEngine.extract_words (e : IndexEngine K D) (document : D) : List String :=
  e.field_accessor.flatMap fun accessor => (accessor document).flatMap e.tokenizer

/-- Order-preserving set insertion: the model of `HashSet::insert`. -/
def insertWord (l : List String) (w : String) : List String :=
  if w ∈ l then l else l ++ [w]

/-- `IndexEngine::index` (src/document_search.rs:76-90): deduplicate the
extracted words into `word_list`, merge them into `word_occurences`, and
add the document to the BM25 index. -/
def IndexEngine.index (e : IndexEngine K D) (key : K) (document : D) :
    IndexEngine K D :=
  let words := e.extract_words document
  let word_list := words.foldl insertWord []
  { e with
    word_occurences := word_list.foldl insertWord e.word_occurences
    bm25Docs := e.bm25Docs ++ [(key, document)] }

/-- `IndexEngine::remove_document` (src/document_search.rs:158-160): only
the BM25 index is touched. -/
def IndexEngine.remove_document [DecidableEq K] (e : IndexEngine K D) (key : K) :
    IndexEngine K D :=
  { e with bm25Docs := e.bm25Docs.filter fun p => p.1 ≠ key }

/-- `IndexEngine::query` (src/document_search.rs:141-144). -/
def IndexEngine.query (e : IndexEngine K D) (query : String)
    (fields_boost : List Rat) : List (K × Rat) :=
  e.querySem e.bm25Docs query fields_boost

/-- `IndexEngine::find_best_matching_autocorrect_token`
(src/document_search.rs:93-114): scan the vocabulary, keeping the words
within the edit-distance limit; with no limit, keep every word. -/
def IndexEngine.find_best_matching_autocorrect_token (e : IndexEngine K D)
    (token : String) (limit : Option Nat) : List String :=
  match limit with
  | some l => e.word_occurences.filter fun k => levenshtein token k ≤ l
  | Option.none => e.word_occurences

/-- The per-token candidate block of the expansion loop
(src/document_search.rs:131-136): the vocabulary matches followed by the
original token. -/
def tokenCandidates (e : IndexEngine K D) (token : String) (limit : LimitOption) :
    List String :=
  e.find_best_matching_autocorrect_token token (limit.into_option token) ++ [token]

/-- The expansion loop of `find_best_matching_autocorrect`
(src/document_search.rs:128-137), recursing over the token list. -/
def autocorrectGo (e : IndexEngine K D) (limit : LimitOption) :
    List String → List String
  | [] => []
  | token :: ts => tokenCandidates e token limit ++ autocorrectGo e limit ts

/-- `IndexEngine::find_best_matching_autocorrect`
(src/document_search.rs:123-138). -/
def IndexEngine.find_best_matching_autocorrect (e : IndexEngine K D)
    (query : String) (limit : LimitOption) : List String :=
  autocorrectGo e limit (e.tokenizer query)

/-- `IndexEngine::query_with_autocorrect` (src/document_search.rs:148-156):
join the expansion with spaces and query as is. -/
def IndexEngine.query_with_autocorrect (e : IndexEngine K D) (query : String)
    (fields_boost : List Rat) (limit : LimitOption) : List (K × Rat) :=
  e.query (String.intercalate " " (e.find_best_matching_autocorrect query limit))
    fields_boost

/-- A corpus mutation: the two operations that change the engine. -/
inductive EngineOp (K D : Type) where
  | index (key : K) (document : D)
  | removeDocument (key : K)

/-- Apply one mutation. -/
def runOp [DecidableEq K] (e : IndexEngine K D) : EngineOp K D → IndexEngine K D
  | .index k d => e.index k d
  | .removeDocument k => e.remove_document k

/-- Apply a fixed sequence of mutations in order. -/
def runOps [DecidableEq K] (e : IndexEngine K D) (ops : List (EngineOp K D)) :
    IndexEngine K D :=
  ops.foldl runOp e

/-! ### Vocabulary and candidate-set lemmas -/

lemma insertWord_mem (l : List String) (w x : String) :
    x ∈ insertWord l w ↔ x ∈ l ∨ x = w := by
  unfold insertWord
  split
  · rename_i h
    constructor
    · exact Or.inl
    · rintro (hx | rfl)
      · exact hx
      · exact h
  · simp

lemma foldl_insertWord_mem (ws : List String) (l : List String) (x : String) :
    x ∈ ws.foldl insertWord l ↔ x ∈ l ∨ x ∈ ws := by
  induction ws generalizing l with
  | nil => simp
  | cons w ws ih =>
    simp only [List.foldl_cons, ih, insertWord_mem, List.mem_cons]
    tauto

lemma index_word_occurences_mem [DecidableEq K] (e : IndexEngine K D) (k : K)
    (d : D) (x : String) :
    x ∈ (e.index k d).word_occurences ↔
      x ∈ e.word_occurences ∨ x ∈ e.extract_words d := by
  unfold IndexEngine.index
  simp only [foldl_insertWord_mem]
  tauto

/-- C2: for every query token and vocabulary, the candidate set produced
by autocorrect expansion is exactly the vocabulary words within the
edit-distance budget together with the token itself; with the unlimited
policy (`LimitOption.none`, `into_option` returning no budget), it is the
whole vocabulary together with the token. -/
theorem tokenCandidates_spec (e : IndexEngine K D) (t : String) (lim : LimitOption) :
    (∀ b : Nat, lim.into_option t = some b →
      ∀ x, x ∈ tokenCandidates e t lim ↔
        ((x ∈ e.word_occurences ∧ levenshtein t x ≤ b) ∨ x = t)) ∧
    (lim.into_option t = Option.none →
      ∀ x, x ∈ tokenCandidates e t lim ↔ (x ∈ e.word_occurences ∨ x = t)) := by
  constructor
  · intro b hb x
    unfold tokenCandidates IndexEngine.find_best_matching_autocorrect_token
    rw [hb]
    simp [List.mem_filter, List.mem_append]
  · intro hb x
    unfold tokenCandidates IndexEngine.find_best_matching_autocorrect_token
    rw [hb]
    simp [List.mem_append]

/-- A concrete engine for witnesses: vocabulary `{"hello"}`. -/
def sampleEngine : IndexEngine Int String :=
  { bm25Docs := []
    querySem := fun _ _ _ => []
    tokenizer := tokenizer
    field_accessor := [fun d => [d]]
    word_occurences := ["hello"] }

/-- Witness for C2: with vocabulary `{"hello"}` and token `"helo"`
(length 4, word-length-based budget 1, distance 1), the candidate set
contains both `"hello"` and the original token. -/
theorem tokenCandidates_spec_witness :
    "hello" ∈ tokenCandidates sampleEngine "helo" LimitOption.wordLengthBased ∧
    "helo" ∈ tokenCandidates sampleEngine "helo" LimitOption.wordLengthBased :=
  ⟨((tokenCandidates_spec sampleEngine "helo" LimitOption.wordLengthBased).1 1
      (by decide) "hello").mpr (Or.inl ⟨by decide, by decide⟩),
   ((tokenCandidates_spec sampleEngine "helo" LimitOption.wordLengthBased).1 1
      (by decide) "helo").mpr (Or.inr rfl)⟩

lemma autocorrectGo_flatMap (e : IndexEngine K D) (lim : LimitOption)
    (ts : List String) :
    autocorrectGo e lim ts = ts.flatMap fun t => tokenCandidates e t lim := by
  induction ts with
  | nil => rfl
  | cons t ts ih => simp [autocorrectGo, ih]

/-- C3: `query_with_autocorrect(query, boosts, limit)` equals
`query(expandedText, boosts)` where `expandedText` is the space-joined
concatenation, in original token order, of every token's candidate set. -/
theorem query_with_autocorrect_is_expanded_query (e : IndexEngine K D)
    (q : String) (boosts : List Rat) (lim : LimitOption) :
    e.query_with_autocorrect q boosts lim =
      e.query (String.intercalate " "
        ((e.tokenizer q).flatMap fun t => tokenCandidates e t lim)) boosts := by
  unfold IndexEngine.query_with_autocorrect IndexEngine.find_best_matching_autocorrect
  rw [autocorrectGo_flatMap]

/-- C4: the vocabulary is monotonically non-decreasing: `index` adds every
extracted token to the vocabulary and keeps the old ones, `remove_document`
leaves the vocabulary unchanged, and no operation sequence ever removes a
vocabulary word. -/
theorem word_occurences_monotone [DecidableEq K] (e : IndexEngine K D) :
    (∀ (k : K) (d : D) (w : String),
      w ∈ e.extract_words d → w ∈ (e.index k d).word_occurences) ∧
    (∀ (k : K) (d : D) (w : String),
      w ∈ e.word_occurences → w ∈ (e.index k d).word_occurences) ∧
    (∀ k : K, (e.remove_document k).word_occurences = e.word_occurences) ∧
    (∀ (ops : List (EngineOp K D)) (w : String),
      w ∈ e.word_occurences → w ∈ (runOps e ops).word_occurences) := by
  refine ⟨?_, ?_, ?_, ?_⟩
  · intro k d w hw
    exact (index_word_occurences_mem e k d w).mpr (Or.inr hw)
  · intro k d w hw
    exact (index_word_occurences_mem e k d w).mpr (Or.inl hw)
  · intro k
    rfl
  · intro ops
    induction ops generalizing e with
    | nil => intro w hw; exact hw
    | cons op ops ih =>
      intro w hw
      refine ih (runOp e op) w ?_
      cases op with
      | index k d => exact (index_word_occurences_mem e k d w).mpr (Or.inl hw)
      | removeDocument k => exact hw

/-- Witness for C4: indexing the document `"apple pie"` into the sample
engine makes `"apple"` a vocabulary word, keeps `"hello"`, and a
subsequent removal keeps both. -/
theorem word_occurences_monotone_witness :
    "apple" ∈ (sampleEngine.index 1 "apple pie").word_occurences ∧
    "hello" ∈ (sampleEngine.index 1 "apple pie").word_occurences ∧
    ((sampleEngine.index 1 "apple pie").remove_document 1).word_occurences =
      (sampleEngine.index 1 "apple pie").word_occurences ∧
    "hello" ∈ (runOps sampleEngine
      [EngineOp.index 1 "apple pie", EngineOp.removeDocument 1]).word_occurences :=
  ⟨(word_occurences_monotone sampleEngine).1 1 "apple pie" "apple" (by decide),
   (word_occurences_monotone sampleEngine).2.1 1 "apple pie" "hello" (by decide),
   (word_occurences_monotone (sampleEngine.index 1 "apple pie")).2.2.1 1,
   (word_occurences_monotone sampleEngine).2.2.2
     [EngineOp.index 1 "apple pie", EngineOp.removeDocument 1] "hello" (by decide)⟩

/-! ### Cross-run determinism

`word_occurences` is a Rust `HashSet<String>` whose iteration order
(document_search.rs:100) is per-instance: two engine instances built by
the same operation sequence hold the same vocabulary *as a set* but may
enumerate it in different orders, so the autocorrect expansion feeds the
scorer query strings whose tokens are permutations of one another. A
*run* is therefore modelled as any state agreeing with the canonical
`runOps` state up to a permutation of the vocabulary list. -/

/-- A state reachable by running `ops` from `e0`: the indexed documents
and the code fields are exactly those of `runOps`, while the vocabulary
may appear in any iteration order (same elements, arbitrary
permutation). -/
def IsRunOf (e0 : IndexEngine K D) [DecidableEq K] (ops : List (EngineOp K D))
    (s : IndexEngine K D) : Prop :=
  s.bm25Docs = (runOps e0 ops).bm25Docs ∧
  s.word_occurences.Perm (runOps e0 ops).word_occurences ∧
  s.querySem = e0.querySem ∧
  s.tokenizer = e0.tokenizer ∧
  s.field_accessor = e0.field_accessor

/-- Modelled from the spec: the `probly_search` BM25 scorer is not under
`src/`; per §4.3 it combines per-token contributions by the weighted sum
`Σ boost[field] * bm25(field, token, id)` over all matching tokens, so
its result does not depend on the order in which the query presents its
tokens. This property of the abstract scorer is the hypothesis under
which autocorrect scoring is order-independent. -/
def TokenOrderInvariant
    (querySem : List (K × D) → String → List Rat → List (K × Rat)) : Prop :=
  ∀ (docs : List (K × D)) (ts₁ ts₂ : List String) (boosts : List Rat),
    ts₁.Perm ts₂ →
    querySem docs (String.intercalate " " ts₁) boosts =
      querySem docs (String.intercalate " " ts₂) boosts

lemma tokenCandidates_perm (s₁ s₂ : IndexEngine K D) (t : String)
    (lim : LimitOption) (h : s₁.word_occurences.Perm s₂.word_occurences) :
    (tokenCandidates s₁ t lim).Perm (tokenCandidates s₂ t lim) := by
  unfold tokenCandidates IndexEngine.find_best_matching_autocorrect_token
  cases lim.into_option t with
  | none => exact h.append (List.Perm.refl [t])
  | some l => exact (h.filter _).append (List.Perm.refl [t])

lemma autocorrectGo_perm (s₁ s₂ : IndexEngine K D) (lim : LimitOption)
    (ts : List String) (h : s₁.word_occurences.Perm s₂.word_occurences) :
    (autocorrectGo s₁ lim ts).Perm (autocorrectGo s₂ lim ts) := by
  induction ts with
  | nil => exact List.Perm.refl _
  | cons t ts ih => exact (tokenCandidates_perm s₁ s₂ t lim h).append ih

/-- C9: scoring is deterministic across runs: any two engine states built
by the same fixed sequence of index/remove operations — identical corpus,
vocabulary presented in arbitrary per-instance iteration orders — give
identical scores for `query` at every query text and boost vector, and,
with the scorer combining per-token contributions order-insensitively
(spec §4.3), identical scores for `query_with_autocorrect` at every limit
policy as well. -/
theorem query_deterministic [DecidableEq K] (e0 : IndexEngine K D)
    (ops : List (EngineOp K D)) (q : String) (boosts : List Rat)
    (lim : LimitOption) (s₁ s₂ : IndexEngine K D)
    (h₁ : IsRunOf e0 ops s₁) (h₂ : IsRunOf e0 ops s₂)
    (hinv : TokenOrderInvariant e0.querySem) :
    s₁.query q boosts = s₂.query q boosts ∧
    s₁.query_with_autocorrect q boosts lim =
      s₂.query_with_autocorrect q boosts lim := by
  obtain ⟨hb₁, hw₁, hq₁, ht₁, hf₁⟩ := h₁
  obtain ⟨hb₂, hw₂, hq₂, ht₂, hf₂⟩ := h₂
  have hdocs : s₁.bm25Docs = s₂.bm25Docs := by rw [hb₁, hb₂]
  have hqs : s₁.querySem = s₂.querySem := by rw [hq₁, hq₂]
  have htok : s₁.tokenizer = s₂.tokenizer := by rw [ht₁, ht₂]
  have hvocab : s₁.word_occurences.Perm s₂.word_occurences := hw₁.trans hw₂.symm
  constructor
  · unfold IndexEngine.query
    rw [hdocs, hqs]
  · unfold IndexEngine.query_with_autocorrect IndexEngine.query
      IndexEngine.find_best_matching_autocorrect
    rw [hdocs, hqs, htok, hq₂]
    exact hinv s₂.bm25Docs _ _ boosts
      (autocorrectGo_perm s₁ s₂ lim (s₂.tokenizer q) hvocab)

/-- The canonical run: index `"apple pie"` into the sample engine,
vocabulary in insertion order `["hello", "apple", "pie"]`. -/
def sampleRun : IndexEngine Int String :=
  runOps sampleEngine [EngineOp.index 1 "apple pie"]

/-- The same run with the opposite vocabulary iteration order: a second
instance of the same corpus whose `HashSet` enumerates the other way. -/
def sampleRunPermuted : IndexEngine Int String :=
  { sampleRun with word_occurences := ["pie", "apple", "hello"] }

/-- Witness for C9: the two concrete runs above — same operations, genuinely
different vocabulary orders — score identically. -/
theorem query_deterministic_witness :
    sampleRun.query "apple" [1] = sampleRunPermuted.query "apple" [1] ∧
    sampleRun.query_with_autocorrect "apple" [1] LimitOption.wordLengthBased =
      sampleRunPermuted.query_with_autocorrect "apple" [1]
        LimitOption.wordLengthBased :=
  query_deterministic sampleEngine [EngineOp.index 1 "apple pie"] "apple" [1]
    LimitOption.wordLengthBased sampleRun sampleRunPermuted
    ⟨rfl, List.Perm.refl _, rfl, rfl, rfl⟩
    ⟨rfl, by decide, rfl, rfl, rfl⟩
    (fun _ _ _ _ _ => rfl)

/-! ### Tokenizer claims

`tokenizer` splits on the single space character. Note that Rust's
`str::split` always yields at least one piece: `"".split(' ')` yields one
empty token, not zero tokens. -/

/-- Space-joining of token pieces: the inverse of splitting. -/
def joinWithChar (d : Char) : List (List Char) → List Char
  | [] => []
  | [t] => t
  | t :: ts => t ++ d :: joinWithChar d ts

lemma splitOnChar_ne_nil (d : Char) (cs : List Char) : splitOnChar d cs ≠ [] := by
  cases cs with
  | nil => simp [splitOnChar]
  | cons c cs =>
    simp only [splitOnChar]
    split
    · simp
    · split <;> simp

lemma joinWithChar_splitOnChar (d : Char) (cs : List Char) :
    joinWithChar d (splitOnChar d cs) = cs := by
  induction cs with
  | nil => rfl
  | cons c cs ih =>
    simp only [splitOnChar]
    by_cases hc : c = d
    · rw [if_pos hc]
      obtain ⟨t, ts, ht⟩ := List.exists_cons_of_ne_nil (splitOnChar_ne_nil d cs)
      rw [ht]
      have hj : joinWithChar d ([] :: t :: ts) = d :: joinWithChar d (t :: ts) := rfl
      rw [hj, ← ht, ih, hc]
    · rw [if_neg hc]
      obtain ⟨t, ts, ht⟩ := List.exists_cons_of_ne_nil (splitOnChar_ne_nil d cs)
      rw [ht] at ih ⊢
      cases ts with
      | nil =>
        have hj : joinWithChar d [t] = t := rfl
        rw [hj] at ih
        show joinWithChar d [c :: t] = c :: cs
        rw [show joinWithChar d [c :: t] = c :: t from rfl, ih]
      | cons t2 ts2 =>
        show (c :: t) ++ d :: joinWithChar d (t2 :: ts2) = c :: cs
        have hj : joinWithChar d (t :: t2 :: ts2) = t ++ d :: joinWithChar d (t2 :: ts2) := rfl
        rw [hj] at ih
        rw [List.cons_append, ih]

lemma splitOnChar_no_delim (d : Char) (cs : List Char) :
    ∀ t ∈ splitOnChar d cs, d ∉ t := by
  induction cs with
  | nil =>
    intro t ht
    simp only [splitOnChar, List.mem_singleton] at ht
    subst ht
    simp
  | cons c cs ih =>
    intro t ht
    simp only [splitOnChar] at ht
    by_cases hc : c = d
    · rw [if_pos hc] at ht
      rcases List.mem_cons.mp ht with h | h
      · subst h; simp
      · exact ih t h
    · rw [if_neg hc] at ht
      obtain ⟨t0, ts, hsplit⟩ := List.exists_cons_of_ne_nil (splitOnChar_ne_nil d cs)
      rw [hsplit] at ht
      rcases List.mem_cons.mp ht with rfl | h
      · intro hmem
        rcases List.mem_cons.mp hmem with h1 | h1
        · exact hc h1.symm
        · exact ih t0 (hsplit ▸ List.mem_cons_self t0 ts) h1
      · exact ih t (hsplit ▸ List.mem_cons_of_mem t0 h)

/-- C8 counterexample: the empty query text does not yield zero tokens —
the tokenizer returns exactly one (empty) token. -/
theorem tokenizer_empty_one_empty_token : tokenizer "" = [""] ∧ tokenizer "" ≠ [] := by
  decide

/-- C8 (amended): `tokenize` splits on the single space delimiter
(space-joining the pieces restores the text and no token contains a
space), preserves token order, yields empty tokens for repeated
delimiters, and the empty text yields one empty token. -/
theorem tokenizer_splits_on_space :
    (∀ cs : List Char, joinWithChar ' ' (splitOnChar ' ' cs) = cs) ∧
    (∀ (cs t : List Char), t ∈ splitOnChar ' ' cs → ' ' ∉ t) ∧
    tokenizer "a  b" = ["a", "", "b"] ∧
    tokenizer "" = [""] :=
  ⟨fun cs => joinWithChar_splitOnChar ' ' cs,
   fun cs t ht => splitOnChar_no_delim ' ' cs t ht,
   by decide, by decide⟩

/-- Witness for C8: the general conjuncts applied at a concrete text. -/
theorem tokenizer_splits_on_space_witness :
    joinWithChar ' ' (splitOnChar ' ' ['h', 'i', ' ', 'y', 'o']) =
      ['h', 'i', ' ', 'y', 'o'] ∧
    ' ' ∉ (['h', 'i'] : List Char) :=
  ⟨tokenizer_splits_on_space.1 ['h', 'i', ' ', 'y', 'o'],
   tokenizer_splits_on_space.2.1 ['h', 'i', ' ', 'y', 'o'] ['h', 'i'] (by decide)⟩

/-! ## `business.rs`: the query orchestrator `find_items`

External collaborators are explicit parameters: the scorer result is the
already-collected `Vec<(f64, &Document<i64>)>` (scores as `Rat`, document
ids as `Int`), the SQL `items` table is a `List Item` in table order, and
the `item_files.read` side effect (which loads binary fields from disk
and leaves the record unchanged on error) is a function `load`.

Rust's `sort_by` is a stable sort; it is modelled by
`List.insertionSort`, which is stable — a stable sort's output is
uniquely determined by the comparator and the input order, so the model
agrees with the source exactly, ties included. -/

/-- `CustError` (src/error.rs:20-25), status as the numeric HTTP code. -/
structure CustError where
  message : String
  status : Nat
deriving DecidableEq

/-- `Item` (src/types.rs:150-159), `f32` price as `Rat`. -/
structure Item where
  id : Option Int
  name : String
  description : Option String
  category_id : Option Int
  price : Option Rat
  thumbnail : Option String
  fullsize : Option String
deriving DecidableEq

deriving instance DecidableEq for Except

/-- `BusinessRules::find_score_for_item` (src/business.rs:263-271): first
score in the query result whose document id matches. -/
def find_score_for_item (id : Int) (query_res : List (Rat × Int)) : Option Rat :=
  (query_res.find? fun p => p.2 == id).map Prod.fst

/-- The error built at src/business.rs:286-289: HTTP 404, not 500. -/
def noMatchesError : CustError :=
  { message := "no items for search query", status := 404 }

/-- `BusinessRules::find_items` (src/business.rs:273-326) up to the final
projection, keeping each record's score: empty scorer result is the
no-matches error; otherwise sort ascending by score, fetch the store rows
whose id occurs in the result, pair each row with its score (dropping
rows without one), load binary fields, sort ascending by score again and
reverse. -/
def findItemsScored (result : List (Rat × Int)) (store : List Item)
    (load : Item → Item) : Except CustError (List (Rat × Item)) :=
  if result.isEmpty then
    .error noMatchesError
  else
    let sorted := List.insertionSort (fun a b => a.1 ≤ b.1) result
    let ids := sorted.map Prod.snd
    let fetched := store.filter fun item =>
      match item.id with
      | some i => ids.contains i
      | Option.none => false
    let kept := fetched.filterMap fun item =>
      (find_score_for_item (item.id.getD 0) result).map fun s => (s, item)
    let loaded := kept.map fun p => (p.1, load p.2)
    let sorted2 := List.insertionSort (fun a b => a.1 ≤ b.1) loaded
    .ok sorted2.reverse

/-- `BusinessRules::find_items`: the returned records, scores projected
away (src/business.rs:325). -/
def find_items (result : List (Rat × Int)) (store : List Item)
    (load : Item → Item) : Except CustError (List Item) :=
  (findItemsScored result store load).map (List.map Prod.snd)

lemma findItemsScored_pairwise (result : List (Rat × Int)) (store : List Item)
    (load : Item → Item) (l : List (Rat × Item))
    (h : findItemsScored result store load = .ok l) :
    l.Pairwise fun a b => b.1 ≤ a.1 := by
  unfold findItemsScored at h
  split at h
  · exact absurd h (by simp)
  · rw [Except.ok.injEq] at h
    subst h
    rw [List.pairwise_reverse]
    haveI : IsTotal (Rat × Item) (fun a b => a.1 ≤ b.1) :=
      ⟨fun a b => le_total a.1 b.1⟩
    haveI : IsTrans (Rat × Item) (fun a b => a.1 ≤ b.1) :=
      ⟨fun _ _ _ h1 h2 => le_trans h1 h2⟩
    exact List.sorted_insertionSort _ _

/-- `1/5`, in reduced form so that the kernel can evaluate with it. -/
def score02 : Rat := ⟨1, 5, by decide, by decide⟩

/-- `9/10`, in reduced form so that the kernel can evaluate with it. -/
def score09 : Rat := ⟨9, 10, by decide, by decide⟩

/-- `1/2`, in reduced form so that the kernel can evaluate with it. -/
def score05 : Rat := ⟨1, 2, by decide, by decide⟩

/-- `7/10`, in reduced form so that the kernel can evaluate with it. -/
def score07 : Rat := ⟨7, 10, by decide, by decide⟩

lemma score02_eq : score02 = 0.2 := by
  unfold score02; rw [Rat.mk'_eq_divInt]; norm_num [Rat.divInt_eq_div]

lemma score09_eq : score09 = 0.9 := by
  unfold score09; rw [Rat.mk'_eq_divInt]; norm_num [Rat.divInt_eq_div]

lemma score05_eq : score05 = 0.5 := by
  unfold score05; rw [Rat.mk'_eq_divInt]; norm_num [Rat.divInt_eq_div]

lemma score07_eq : score07 = 0.7 := by
  unfold score07; rw [Rat.mk'_eq_divInt]; norm_num [Rat.divInt_eq_div]

/-- An item with id 1, for concrete instances. -/
def itemA : Item :=
  { id := some 1, name := "alpha", description := Option.none,
    category_id := Option.none, price := Option.none,
    thumbnail := Option.none, fullsize := Option.none }

/-- An item with id 2, for concrete instances. -/
def itemB : Item :=
  { id := some 2, name := "beta", description := Option.none,
    category_id := Option.none, price := Option.none,
    thumbnail := Option.none, fullsize := Option.none }

/-- C5: `find_items` returns records in descending score order (every
score is ≥ the next one), and concretely, with two matching documents
scored 0.2 and 0.9, the 0.9 document comes strictly first. -/
theorem find_items_descending :
    (∀ (result : List (Rat × Int)) (store : List Item) (load : Item → Item)
      (l : List (Rat × Item)), findItemsScored result store load = .ok l →
        l.Pairwise fun a b => b.1 ≤ a.1) ∧
    find_items [(0.2, 1), (0.9, 2)] [itemA, itemB] (fun i => i) =
      .ok [itemB, itemA] :=
  ⟨findItemsScored_pairwise, by
    rw [show (0.2 : Rat) = score02 from score02_eq.symm,
      show (0.9 : Rat) = score09 from score09_eq.symm]
    decide⟩

/-- Witness for C5: the descending-order theorem applied at the concrete
0.2 / 0.9 corpus. -/
theorem find_items_descending_witness :
    ([(score09, itemB), (score02, itemA)]).Pairwise
      (fun a b => b.1 ≤ a.1) :=
  find_items_descending.1 [(score02, 1), (score09, 2)] [itemA, itemB] (fun i => i)
    [(score09, itemB), (score02, itemA)] (by decide)

/-- C6: a scorer result with zero scoring documents makes `find_items`
return the typed no-matches error with HTTP status 404 (not a generic
500); in particular, with a scorer that returns nothing for the empty
query, searching `""` yields that same no-matches error. -/
theorem find_items_no_matches (result : List (Rat × Int)) (store : List Item)
    (load : Item → Item) (scorer : String → List (Rat × Int))
    (hempty : result = []) (hscorer : scorer "" = []) :
    find_items result store load = .error noMatchesError ∧
    find_items (scorer "") store load = .error noMatchesError ∧
    noMatchesError.status = 404 ∧ noMatchesError.status ≠ 500 := by
  subst hempty
  rw [hscorer]
  exact ⟨rfl, rfl, rfl, by decide⟩

/-- Witness for C6 at a concrete store and scorer. -/
theorem find_items_no_matches_witness :
    find_items [] [itemA] (fun i => i) = .error noMatchesError ∧
    find_items ((fun _ => []) "") [itemA] (fun i => i) = .error noMatchesError ∧
    noMatchesError.status = 404 ∧ noMatchesError.status ≠ 500 :=
  find_items_no_matches [] [itemA] (fun i => i) (fun _ => []) rfl rfl

/-- C7: whenever the scorer result is non-empty, `find_items` succeeds —
ids absent from the store are silently dropped, never an error — every
returned record comes from the store (with its binary fields loaded), its
score comes from the scorer result, and the output is in descending score
order. -/
theorem find_items_drops_missing_ids (result : List (Rat × Int))
    (store : List Item) (load : Item → Item) (hne : ¬ result = []) :
    ∃ l, findItemsScored result store load = .ok l ∧
      (∀ p ∈ l, (∃ item ∈ store, p.2 = load item) ∧ ∃ i : Int, (p.1, i) ∈ result) ∧
      l.Pairwise (fun a b => b.1 ≤ a.1) ∧
      find_items result store load = .ok (l.map Prod.snd) := by
  have hok : ∃ l, findItemsScored result store load = .ok l := by
    unfold findItemsScored
    split
    · rename_i hemp
      exact absurd (List.isEmpty_iff.mp hemp) hne
    · exact ⟨_, rfl⟩
  obtain ⟨l, hl⟩ := hok
  refine ⟨l, hl, ?_, findItemsScored_pairwise result store load l hl, ?_⟩
  · intro p hp
    unfold findItemsScored at hl
    split at hl
    · exact absurd hl (by simp)
    · rw [Except.ok.injEq] at hl
      subst hl
      rw [List.mem_reverse] at hp
      have hp2 := (List.perm_insertionSort
        (fun a b : Rat × Item => a.1 ≤ b.1) _).mem_iff.mp hp
      rw [List.mem_map] at hp2
      obtain ⟨q, hq, rfl⟩ := hp2
      rw [List.mem_filterMap] at hq
      obtain ⟨item, hitem, hq⟩ := hq
      rw [Option.map_eq_some'] at hq
      obtain ⟨s, hs, rfl⟩ := hq
      constructor
      · exact ⟨item, (List.mem_filter.mp hitem).1, rfl⟩
      · unfold find_score_for_item at hs
        rw [Option.map_eq_some'] at hs
        obtain ⟨p0, hp0, rfl⟩ := hs
        exact ⟨p0.2, List.mem_of_find?_eq_some hp0⟩
  · unfold find_items
    rw [hl]
    rfl

/-- Witness for C7: the scorer result mentions id 3, which is absent from
the one-item store; the search still succeeds and returns only the stored
record. -/
theorem find_items_drops_missing_ids_witness :
    ∃ l, findItemsScored [(score05, 1), (score07, 3)] [itemA] (fun i => i) = .ok l ∧
      (∀ p ∈ l, (∃ item ∈ [itemA], p.2 = (fun i => i) item) ∧
        ∃ i : Int, (p.1, i) ∈ [(score05, (1 : Int)), (score07, 3)]) ∧
      l.Pairwise (fun a b => b.1 ≤ a.1) ∧
      find_items [(score05, 1), (score07, 3)] [itemA] (fun i => i) =
        .ok (l.map Prod.snd) :=
  find_items_drops_missing_ids [(score05, 1), (score07, 3)] [itemA] (fun i => i)
    (List.cons_ne_nil _ _)

/-! ## `types.rs`: `Item` binary serialization

`Item::as_bytes` / `Item::change_from_bytes` use the `base64` crate's
`STANDARD` engine: padded alphabet `A-Za-z0-9+/`, decoding requires
canonical padding and rejects non-zero trailing bits. Bytes are `Nat`
values below 256; `usize` length prefixes are eight little-endian bytes
(64-bit target). -/

/-- The standard base64 alphabet. -/
def b64Alphabet : List Char :=
  "ABCDEFGHIJKLMNOPQRSTUVWXYZabcdefghijklmnopqrstuvwxyz0123456789+/".toList

/-- The character for a 6-bit value. -/
def b64Char (v : Nat) : Char :=
  b64Alphabet.getD v 'A'

/-- First index of a character in a list, if any. -/
def b64Index : List Char → Char → Option Nat
  | [], _ => Option.none
  | a :: as, c => if c = a then some 0 else (b64Index as c).map Nat.succ

/-- The 6-bit value of an alphabet character. -/
def b64IndexOf (c : Char) : Option Nat :=
  b64Index b64Alphabet c

/-- base64-encode a byte list (standard alphabet, with padding). -/
def b64EncodeList : List Nat → List Char
  | [] => []
  | [b0] => [b64Char (b0 / 4), b64Char (b0 % 4 * 16), '=', '=']
  | [b0, b1] =>
    [b64Char (b0 / 4), b64Char (b0 % 4 * 16 + b1 / 16), b64Char (b1 % 16 * 4), '=']
  | b0 :: b1 :: b2 :: rest =>
    b64Char (b0 / 4) :: b64Char (b0 % 4 * 16 + b1 / 16) ::
      b64Char (b1 % 16 * 4 + b2 / 64) :: b64Char (b2 % 64) :: b64EncodeList rest

/-- base64-decode a character list: length must be a multiple of four,
padding must be canonical, trailing bits must be zero (the `STANDARD`
engine's checks). -/
def b64DecodeList : List Char → Option (List Nat)
  | [] => some []
  | c0 :: c1 :: c2 :: c3 :: rest =>
    match b64IndexOf c0, b64IndexOf c1 with
    | some v0, some v1 =>
      if c2 = '=' then
        if c3 = '=' ∧ rest = [] ∧ v1 % 16 = 0 then
          some [v0 * 4 + v1 / 16]
        else Option.none
      else
        match b64IndexOf c2 with
        | some v2 =>
          if c3 = '=' then
            if rest = [] ∧ v2 % 4 = 0 then
              some [v0 * 4 + v1 / 16, v1 % 16 * 16 + v2 / 4]
            else Option.none
          else
            match b64IndexOf c3 with
            | some v3 =>
              (b64DecodeList rest).map fun bs =>
                (v0 * 4 + v1 / 16) :: (v1 % 16 * 16 + v2 / 4) ::
                  (v2 % 4 * 64 + v3) :: bs
            | Option.none => Option.none
        | Option.none => Option.none
    | _, _ => Option.none
  | _ => Option.none

/-- `base64::...::STANDARD.encode` on strings. -/
def b64encode (bs : List Nat) : String :=
  String.mk (b64EncodeList bs)

/-- `base64::...::STANDARD.decode` on strings. -/
def b64decode (s : String) : Option (List Nat) :=
  b64DecodeList s.toList

/-- `usize::to_le_bytes` on a 64-bit target. -/
def toLE8 (n : Nat) : List Nat :=
  [n % 256, n / 256 % 256, n / 65536 % 256, n / 16777216 % 256,
   n / 4294967296 % 256, n / 1099511627776 % 256,
   n / 281474976710656 % 256, n / 72057594037927936 % 256]

/-- `usize::from_le_bytes`. -/
def fromLE8 (l : List Nat) : Nat :=
  l.foldr (fun b acc => b + 256 * acc) 0

/-- `Item::as_bytes` (src/types.rs:210-230): decode both base64 fields
(`None` becomes the empty byte string, a decode error aborts), emit each
preceded by its 8-byte little-endian length. -/
def Item.as_bytes (it : Item) : Option (List Nat) := do
  let thumbnail_data ←
    match it.thumbnail with
    | some t => b64decode t
    | Option.none => some []
  let image_data ←
    match it.fullsize with
    | some f => b64decode f
    | Option.none => some []
  some (toLE8 thumbnail_data.length ++ thumbnail_data ++
    toLE8 image_data.length ++ image_data)

/-- `Item::change_from_bytes` (src/types.rs:232-265): read the two
length-prefixed segments back, re-encode them as base64, and require that
no bytes remain (the `assert!`); out-of-range slices (Rust panics) and a
failed assert are `Option.none`. -/
def Item.change_from_bytes (it : Item) (bytes : List Nat) : Option Item :=
  if 8 ≤ bytes.length then
    let size := fromLE8 (bytes.take 8)
    let rest := bytes.drop 8
    if size ≤ rest.length then
      let data := rest.take size
      let rest2 := rest.drop size
      if 8 ≤ rest2.length then
        let size2 := fromLE8 (rest2.take 8)
        let rest3 := rest2.drop 8
        if size2 ≤ rest3.length then
          let data2 := rest3.take size2
          let rest4 := rest3.drop size2
          if rest4 = [] then
            some { it with
              thumbnail := some (b64encode data)
              fullsize := some (b64encode data2) }
          else Option.none
        else Option.none
      else Option.none
    else Option.none
  else Option.none

/-! ### Round-trip lemmas -/

lemma b64Index_some : ∀ (l : List Char) (c : Char) (v : Nat),
    b64Index l c = some v → v < l.length ∧ l.getD v 'A' = c := by
  intro l
  induction l with
  | nil => intro c v h; simp [b64Index] at h
  | cons a as ih =>
    intro c v h
    simp only [b64Index] at h
    by_cases hc : c = a
    · rw [if_pos hc] at h
      injection h with h
      subst h
      exact ⟨by simp, hc.symm⟩
    · rw [if_neg hc, Option.map_eq_some'] at h
      obtain ⟨w, hw, hv⟩ := h
      subst hv
      obtain ⟨hlt, hget⟩ := ih c w hw
      exact ⟨by simpa using Nat.succ_lt_succ hlt, by simpa using hget⟩

lemma b64IndexOf_some (c : Char) (v : Nat) (h : b64IndexOf c = some v) :
    v < 64 ∧ b64Char v = c := by
  obtain ⟨hlt, hget⟩ := b64Index_some b64Alphabet c v h
  have hlen : b64Alphabet.length = 64 := rfl
  rw [hlen] at hlt
  exact ⟨hlt, hget⟩

/-- Decoding is a partial inverse of encoding: every accepted base64
character list re-encodes to itself (the `STANDARD` engine only accepts
canonical encodings). -/
theorem b64EncodeList_decode : ∀ (cs : List Char) (bs : List Nat),
    b64DecodeList cs = some bs → b64EncodeList bs = cs
  | [], bs, h => by
    simp only [b64DecodeList, Option.some.injEq] at h
    subst h
    rfl
  | [_], bs, h => by simp [b64DecodeList] at h
  | [_, _], bs, h => by simp [b64DecodeList] at h
  | [_, _, _], bs, h => by simp [b64DecodeList] at h
  | c0 :: c1 :: c2 :: c3 :: rest, bs, h => by
    simp only [b64DecodeList] at h
    cases h0 : b64IndexOf c0 with
    | none => rw [h0] at h; simp at h
    | some v0 =>
    cases h1 : b64IndexOf c1 with
    | none => rw [h0, h1] at h; simp at h
    | some v1 =>
    rw [h0, h1] at h
    dsimp only at h
    obtain ⟨hv0, hc0⟩ := b64IndexOf_some c0 v0 h0
    obtain ⟨hv1, hc1⟩ := b64IndexOf_some c1 v1 h1
    by_cases hc2 : c2 = '='
    · rw [if_pos hc2] at h
      by_cases hcond : c3 = '=' ∧ rest = [] ∧ v1 % 16 = 0
      · rw [if_pos hcond] at h
        obtain ⟨hc3, hrest, hv1m⟩ := hcond
        rw [Option.some.injEq] at h
        subst h
        subst hc2; subst hc3; subst hrest
        have e0 : (v0 * 4 + v1 / 16) / 4 = v0 := by omega
        have e1 : (v0 * 4 + v1 / 16) % 4 * 16 = v1 := by omega
        rw [show b64EncodeList [v0 * 4 + v1 / 16] =
          [b64Char ((v0 * 4 + v1 / 16) / 4),
           b64Char ((v0 * 4 + v1 / 16) % 4 * 16), '=', '='] from rfl,
          e0, e1, hc0, hc1]
      · rw [if_neg hcond] at h
        exact absurd h (by simp)
    · rw [if_neg hc2] at h
      cases h2 : b64IndexOf c2 with
      | none => rw [h2] at h; simp at h
      | some v2 =>
      rw [h2] at h
      dsimp only at h
      obtain ⟨hv2, hcc2⟩ := b64IndexOf_some c2 v2 h2
      by_cases hc3 : c3 = '='
      · rw [if_pos hc3] at h
        by_cases hcond : rest = [] ∧ v2 % 4 = 0
        · rw [if_pos hcond] at h
          obtain ⟨hrest, hv2m⟩ := hcond
          rw [Option.some.injEq] at h
          subst h
          subst hc3; subst hrest
          have e0 : (v0 * 4 + v1 / 16) / 4 = v0 := by omega
          have e1 : (v0 * 4 + v1 / 16) % 4 * 16 + (v1 % 16 * 16 + v2 / 4) / 16 = v1 := by
            omega
          have e2 : (v1 % 16 * 16 + v2 / 4) % 16 * 4 = v2 := by omega
          rw [show b64EncodeList [v0 * 4 + v1 / 16, v1 % 16 * 16 + v2 / 4] =
            [b64Char ((v0 * 4 + v1 / 16) / 4),
             b64Char ((v0 * 4 + v1 / 16) % 4 * 16 + (v1 % 16 * 16 + v2 / 4) / 16),
             b64Char ((v1 % 16 * 16 + v2 / 4) % 16 * 4), '='] from rfl,
            e0, e1, e2, hc0, hc1, hcc2]
        · rw [if_neg hcond] at h
          exact absurd h (by simp)
      · rw [if_neg hc3] at h
        cases h3 : b64IndexOf c3 with
        | none => rw [h3] at h; simp at h
        | some v3 =>
        rw [h3] at h
        dsimp only at h
        rw [Option.map_eq_some'] at h
        obtain ⟨bs2, hbs2, hbs⟩ := h
        subst hbs
        obtain ⟨hv3, hcc3⟩ := b64IndexOf_some c3 v3 h3
        have ihres := b64EncodeList_decode rest bs2 hbs2
        have e0 : (v0 * 4 + v1 / 16) / 4 = v0 := by omega
        have e1 : (v0 * 4 + v1 / 16) % 4 * 16 + (v1 % 16 * 16 + v2 / 4) / 16 = v1 := by
          omega
        have e2 : (v1 % 16 * 16 + v2 / 4) % 16 * 4 + (v2 % 4 * 64 + v3) / 64 = v2 := by
          omega
        have e3 : (v2 % 4 * 64 + v3) % 64 = v3 := by omega
        rw [show b64EncodeList ((v0 * 4 + v1 / 16) :: (v1 % 16 * 16 + v2 / 4) ::
            (v2 % 4 * 64 + v3) :: bs2) =
          b64Char ((v0 * 4 + v1 / 16) / 4) ::
            b64Char ((v0 * 4 + v1 / 16) % 4 * 16 + (v1 % 16 * 16 + v2 / 4) / 16) ::
            b64Char ((v1 % 16 * 16 + v2 / 4) % 16 * 4 + (v2 % 4 * 64 + v3) / 64) ::
            b64Char ((v2 % 4 * 64 + v3) % 64) :: b64EncodeList bs2 from rfl,
          e0, e1, e2, e3, hc0, hc1, hcc2, hcc3, ihres]

lemma b64encode_b64decode (s : String) (bs : List Nat)
    (h : b64decode s = some bs) : b64encode bs = s := by
  unfold b64encode
  rw [b64EncodeList_decode s.toList bs h]
  cases s
  rfl

lemma fromLE8_toLE8 (n : Nat) (h : n < 18446744073709551616) :
    fromLE8 (toLE8 n) = n := by
  simp only [toLE8, fromLE8, List.foldr]
  omega

lemma change_from_bytes_append (it2 : Item) (a b : List Nat)
    (ha : a.length < 18446744073709551616)
    (hb : b.length < 18446744073709551616) :
    Item.change_from_bytes it2 (toLE8 a.length ++ a ++ toLE8 b.length ++ b) =
      some { it2 with thumbnail := some (b64encode a), fullsize := some (b64encode b) } := by
  have h8 : ∀ n : Nat, (toLE8 n).length = 8 := fun _ => rfl
  have hassoc : toLE8 a.length ++ a ++ toLE8 b.length ++ b =
      toLE8 a.length ++ (a ++ (toLE8 b.length ++ b)) := by
    simp [List.append_assoc]
  have htake1 : (toLE8 a.length ++ (a ++ (toLE8 b.length ++ b))).take 8 =
      toLE8 a.length := List.take_left' (h8 _)
  have hdrop1 : (toLE8 a.length ++ (a ++ (toLE8 b.length ++ b))).drop 8 =
      a ++ (toLE8 b.length ++ b) := List.drop_left' (h8 _)
  have htake2 : (a ++ (toLE8 b.length ++ b)).take a.length = a := List.take_left a _
  have hdrop2 : (a ++ (toLE8 b.length ++ b)).drop a.length = toLE8 b.length ++ b :=
    List.drop_left a _
  have htake3 : (toLE8 b.length ++ b).take 8 = toLE8 b.length := List.take_left' (h8 _)
  have hdrop3 : (toLE8 b.length ++ b).drop 8 = b := List.drop_left' (h8 _)
  rw [hassoc]
  simp only [Item.change_from_bytes, htake1, hdrop1, fromLE8_toLE8 a.length ha,
    htake2, hdrop2, htake3, hdrop3, fromLE8_toLE8 b.length hb,
    List.take_length, List.drop_length]
  have c1 : 8 ≤ (toLE8 a.length ++ (a ++ (toLE8 b.length ++ b))).length := by
    simp [List.length_append, h8]
  have c2 : a.length ≤ (a ++ (toLE8 b.length ++ b)).length := by
    simp [List.length_append]
  have c3 : 8 ≤ (toLE8 b.length ++ b).length := by
    simp [List.length_append, h8]
  rw [if_pos c1, if_pos c2, if_pos c3, if_pos (le_refl b.length)]
  simp

/-- C10: for every `Item` whose `thumbnail` and `fullsize` are accepted
base64 strings, serialization round-trips: `as_bytes` succeeds, its output
is the length-prefixed layout (8-byte little-endian thumbnail length,
thumbnail bytes, fullsize length, fullsize bytes, nothing after), and
`change_from_bytes` of that output on any item restores exactly the
original `thumbnail` and `fullsize` strings. -/
theorem item_bytes_roundtrip (it it2 : Item) (s t : String) (ds dt : List Nat)
    (hs : it.thumbnail = some s) (hds : b64decode s = some ds)
    (ht : it.fullsize = some t) (hdt : b64decode t = some dt)
    (hls : ds.length < 18446744073709551616)
    (hlt : dt.length < 18446744073709551616) :
    ∃ bytes, it.as_bytes = some bytes ∧
      bytes = toLE8 ds.length ++ ds ++ toLE8 dt.length ++ dt ∧
      it2.change_from_bytes bytes =
        some { it2 with thumbnail := some s, fullsize := some t } := by
  refine ⟨toLE8 ds.length ++ ds ++ toLE8 dt.length ++ dt, ?_, rfl, ?_⟩
  · unfold Item.as_bytes
    rw [hs, ht]
    simp [hds, hdt]
  · rw [change_from_bytes_append it2 ds dt hls hlt,
      b64encode_b64decode s ds hds, b64encode_b64decode t dt hdt]

/-- The item of the repository's own round-trip test
(src/types.rs:283-304): thumbnail `"YXNkZg=="`, fullsize `"ZmRhcw=="`. -/
def sampleItem : Item :=
  { id := some 1, name := "", description := Option.none,
    category_id := Option.none, price := Option.none,
    thumbnail := some "YXNkZg==", fullsize := some "ZmRhcw==" }

/-- Witness for C10 at the repository's own test vectors. -/
theorem item_bytes_roundtrip_witness :
    ∃ bytes, sampleItem.as_bytes = some bytes ∧
      bytes = toLE8 ([97, 115, 100, 102] : List Nat).length ++ [97, 115, 100, 102] ++
        toLE8 ([102, 100, 97, 115] : List Nat).length ++ [102, 100, 97, 115] ∧
      Item.change_from_bytes itemB bytes =
        some { itemB with thumbnail := some "YXNkZg==", fullsize := some "ZmRhcw==" } :=
  item_bytes_roundtrip sampleItem itemB "YXNkZg==" "ZmRhcw=="
    [97, 115, 100, 102] [102, 100, 97, 115] rfl (by decide) rfl (by decide)
    (by decide) (by decide)

end FindMePls
